import Mathlib

/-!
Verification of the `goparse` declaration-extraction engine (src/parse.go).

The Go source is shallowly embedded: the type-expression renderer `expr`,
the field-list renderer `fields`, the per-declaration describer
`describeFunctionDeclaration` with its section writers, the per-file
report builder `buildFileDescription`, and the accumulator
`Func.ParseFunctions` are translated into executable Lean definitions.
Source text is modelled as a sequence of bytes via `String.data`; node
positions are the 1-based byte offsets `Pos()`/`End()` of `go/ast`.
-/

namespace GoParse

/-- Type-expression variants dispatched by `expr` in src/parse.go:
`*ast.StarExpr`, `*ast.Ident`, `*ast.ArrayType` (with optional `Len`),
`*ast.MapType`, `*ast.SelectorExpr`; `unknown` stands for every other
`ast.Expr` variant (the `default` arm of the type switch). -/
inductive Expr where
  | star : Expr → Expr
  | ident : String → Expr
  | array : Option Expr → Expr → Expr
  | mapT : Expr → Expr → Expr
  | selector : Expr → Expr → Expr
  | unknown : Expr

/-- `expr` from src/parse.go: renders a type expression to canonical
source-like text; the `default` arm logs a diagnostic and returns `""`. -/
def expr : Expr → String
  | .star x => "*" ++ expr x
  | .ident n => n
  | .array (some l) elt => "[" ++ expr l ++ "]" ++ expr elt
  | .array none elt => "[]" ++ expr elt
  | .mapT k v => "map[" ++ expr k ++ "]" ++ expr v
  | .selector x s => expr x ++ "." ++ expr s
  | .unknown => ""

/-- One `ast.Field`: a comma-group of names sharing one type. -/
structure Field where
  names : List String
  type : Expr

/-- The per-group string built in the loop of `fields` in src/parse.go:
`fmt.Sprintf("%s %s", strings.Join(names, ", "), expr(f.Type))`. -/
def fieldPart (f : Field) : String :=
  String.intercalate ", " f.names ++ " " ++ expr f.type

/-- `fields` from src/parse.go: `strings.Join(parts, ", ")` over the
per-group parts. -/
def fields (fl : List Field) : String :=
  String.intercalate ", " (fl.map fieldPart)

/-- A syntax-tree node as walked by `ast.Inspect`: each node is either an
`*ast.CallExpr` (carrying its `Pos()`/`End()` 1-based byte offsets) or
some other node kind; children are kept in syntactic order. -/
inductive Node where
  | call : Nat → Nat → List Node → Node
  | other : List Node → Node

/-- Go string slicing `code[a:b]` (0-based, half-open) over the bytes of
the source text. -/
def goSlice (code : String) (a b : Nat) : String :=
  String.mk ((code.data.drop a).take (b - a))

mutual

/-- The call-expression nodes met by the `ast.Inspect` walk inside
`writeFunctionCalls` (the callback always returns `true`, so the walk
also descends below call nodes), in encounter order. -/
def collectCalls : Node → List (Nat × Nat)
  | .call p e cs => (p, e) :: collectCallsList cs
  | .other cs => collectCallsList cs

/-- `collectCalls` over a child list, left to right. -/
def collectCallsList : List Node → List (Nat × Nat)
  | [] => []
  | n :: ns => collectCalls n ++ collectCallsList ns

end

/-- An `*ast.FuncDecl`: the structured accessors used by the describer
(`Doc` as its comment lines, `Name.Name`, `Recv`, `Type.Params`,
`Type.Results`, `Pos()`, `End()`) plus `tree`, the node subtree that
`ast.Inspect(fn, …)` walks when collecting call expressions. -/
structure FuncDecl where
  doc : Option (List String)
  name : String
  recv : Option (List Field)
  params : Option (List Field)
  results : Option (List Field)
  pos : Nat
  endp : Nat
  tree : Node

/-- `writeComments` from src/parse.go: each comment line verbatim plus a
line break; nothing when no comment group is attached. -/
def writeComments : Option (List String) → String
  | some ls => String.join (ls.map (fun c => c ++ "\n"))
  | none => ""

/-- `writeParameters` from src/parse.go: emitted only when the parameter
`*ast.FieldList` is non-nil. -/
def writeParameters : Option (List Field) → String
  | some ps => "##Parameters " ++ fields ps ++ "\n"
  | none => ""

/-- `writeResults` from src/parse.go: emitted only when the result
`*ast.FieldList` is non-nil. -/
def writeResults : Option (List Field) → String
  | some rs => "##Return " ++ fields rs ++ "\n"
  | none => ""

/-- `writeFunctionCalls` from src/parse.go: the label and fence are always
written; every call expression met by `ast.Inspect` contributes one line
holding the exact source slice `code[call.Pos()-1 : call.End()-1]`. -/
def writeFunctionCalls (fn : FuncDecl) (code : String) : String :=
  "## Function calls from other packages\n\n" ++ "```go\n" ++
    String.join ((collectCalls fn.tree).map
      (fun pe => "  " ++ goSlice code (pe.1 - 1) (pe.2 - 1) ++ "\n")) ++
    "```\n"

/-- `writeFunctionBody` from src/parse.go: a header, a fenced copy of
`code[fn.Pos()-1 : fn.End()-1]`, and the same slice once more after the
closing fence. -/
def writeFunctionBody (fn : FuncDecl) (code : String) : String :=
  "####Function Body of function " ++ fn.name ++ "\n\n" ++
    "```go\n" ++ goSlice code (fn.pos - 1) (fn.endp - 1) ++ "```\n" ++
    goSlice code (fn.pos - 1) (fn.endp - 1)

/-- `describeFunctionDeclaration` from src/parse.go: the block it builds
in its local builder, which it both returns and appends to the file-level
builder. -/
def describeFunctionDeclaration (fn : FuncDecl) (code : String) (includeBody : Bool) : String :=
  writeComments fn.doc ++
    "## " ++ fn.name ++ "\n\n" ++
    (match fn.recv with
      | some r => "## Receiver\n\n" ++ fields r ++ "\n\n"
      | none => "") ++
    writeParameters fn.params ++
    writeResults fn.results ++
    writeFunctionCalls fn code ++
    (if includeBody then writeFunctionBody fn code else "") ++
    "`###End of function with name " ++ fn.name ++ "  ###`\n\n"

/-- `FunctionDescription` from src/parse.go. -/
structure FunctionDescription where
  Name : String
  Doc : String
  Package : String
  IsTestFunction : Bool
deriving DecidableEq

/-- `Param` from src/parse.go. -/
structure Param where
  FilePath : String
  FileName : String
  IncludeBody : Bool

/-- A successfully parsed `*ast.File`: its package name (`file.Name.Name`)
and the `*ast.FuncDecl` nodes in the order `ast.Inspect` meets them. -/
structure GoFile where
  pkgName : String
  funcs : List FuncDecl

/-- `strings.Contains(s, sub)`: `sub` occurs as a contiguous run inside
`s`. -/
def strContains (s sub : String) : Bool :=
  decide (sub.data <:+: s.data)

/-- `buildFileDescription` from src/parse.go: the file report string and
the two record lists (ordinary first, test second). -/
def buildFileDescription (p : Param) (file : GoFile) (code : String) :
    String × List FunctionDescription × List FunctionDescription :=
  let isTest := strContains p.FileName "_test"
  let startFuncWord :=
    if isTest then "##Start of go test file " ++ p.FilePath ++ " \n"
    else "##Start of go file " ++ p.FilePath ++ " \n"
  let endFuncWord :=
    if isTest then "----- End of go test file " ++ p.FilePath ++ " ------- \n"
    else "----- End of go file " ++ p.FilePath ++ " ------- \n"
  let funcWord := if isTest then "##Test Functions\n" else "##Functions\n"
  let blocks := file.funcs.map (fun fn => describeFunctionDeclaration fn code p.IncludeBody)
  let descs := file.funcs.map (fun fn =>
    { Name := fn.name
      Doc := describeFunctionDeclaration fn code p.IncludeBody
      Package := file.pkgName
      IsTestFunction := isTest : FunctionDescription })
  (startFuncWord ++
      "###File path: " ++ p.FilePath ++ " #######\n" ++
      "###File name: " ++ p.FileName ++ " #######\n" ++
      "## Package name: " ++ file.pkgName ++ "\n" ++
      funcWord ++ String.join blocks ++ endFuncWord,
    if isTest then [] else descs,
    if isTest then descs else [])

/-- `Func` from src/parse.go: the accumulator across files. -/
structure Func where
  FullDescriptions : List String
  functionDescriptions : List FunctionDescription
  testFunctionDescriptions : List FunctionDescription

/-- Outcome of the two fallible steps at the head of
`Func.ParseFunctions`: `readFile` then `parseCode`; a success carries the
parsed file and the source text handed to the builder. -/
inductive FileInput where
  | readError : FileInput
  | parseError : String → FileInput
  | ok : GoFile → String → FileInput

/-- `Func.ParseFunctions` from src/parse.go: a read or parse failure only
logs and returns, leaving the accumulator unchanged; a success appends
the report and extends the two record lists. -/
def ParseFunctions (f : Func) (p : Param) (input : FileInput) : Func :=
  match input with
  | .readError => f
  | .parseError _ => f
  | .ok file code =>
    let r := buildFileDescription p file code
    { FullDescriptions := f.FullDescriptions ++ [r.1]
      functionDescriptions := f.functionDescriptions ++ r.2.1
      testFunctionDescriptions := f.testFunctionDescriptions ++ r.2.2 }

/-- One run, as driven by `parseFunctions` in src/main.go: start from the
empty `Func` and call `ParseFunctions` once per input file in order. -/
def runAll (inputs : List (Param × FileInput)) : Func :=
  inputs.foldl (fun f pi => ParseFunctions f pi.1 pi.2) ⟨[], [], []⟩

mutual

/-- Pre-order listing of every node of a subtree: the node itself, then
its children's listings left to right (spec §4.3 step 6). -/
def preorder : Node → List Node
  | .call p e cs => .call p e cs :: preorderList cs
  | .other cs => .other cs :: preorderList cs

/-- `preorder` over a child list, left to right. -/
def preorderList : List Node → List Node
  | [] => []
  | n :: ns => preorder n ++ preorderList ns

end

/-- The call-expression view of a node: its start/end positions when it
is a call expression, nothing otherwise. -/
def callOf : Node → Option (Nat × Nat)
  | .call p e _ => some (p, e)
  | .other _ => none

/-- Replace every unsupported type-expression variant by an identifier
that renders to the same empty text; comparing output on scrubbed and
original input states that an unsupported variant degrades only its own
rendered string (spec §7, UnrenderableExpression). -/
def scrub : Expr → Expr
  | .star x => .star (scrub x)
  | .ident n => .ident n
  | .array (some l) elt => .array (some (scrub l)) (scrub elt)
  | .array none elt => .array none (scrub elt)
  | .mapT k v => .mapT (scrub k) (scrub v)
  | .selector x s => .selector (scrub x) (scrub s)
  | .unknown => .ident ""

/-- `scrub` on one field's type. -/
def scrubField (f : Field) : Field :=
  { f with type := scrub f.type }

/-- `scrub` over every field list of a declaration; name, positions and
call subtree are untouched. -/
def scrubFuncDecl (fn : FuncDecl) : FuncDecl :=
  { fn with
      recv := fn.recv.map (List.map scrubField)
      params := fn.params.map (List.map scrubField)
      results := fn.results.map (List.map scrubField) }

/-- `scrub` over every declaration of a parsed file. -/
def scrubFile (file : GoFile) : GoFile :=
  { file with funcs := file.funcs.map scrubFuncDecl }

/-- The rendered block as spec §4.3 states it, assembled in the fixed
order: doc lines verbatim (nothing when no comment is attached), header,
receiver section only when a receiver is present, parameter line only
when the parameter list is present, result line only when the result
list is present, the always-present call section, the optional body, and
the terminator naming the function. -/
def describeBlockSpec (fn : FuncDecl) (code : String) (includeBody : Bool) : String :=
  String.join
    [ (match fn.doc with
        | none => ""
        | some ls => String.join (ls.map (fun c => c ++ "\n"))),
      "## " ++ fn.name ++ "\n\n",
      (match fn.recv with
        | none => ""
        | some r => "## Receiver\n\n" ++ fields r ++ "\n\n"),
      (match fn.params with
        | none => ""
        | some ps => "##Parameters " ++ fields ps ++ "\n"),
      (match fn.results with
        | none => ""
        | some rs => "##Return " ++ fields rs ++ "\n"),
      writeFunctionCalls fn code,
      (if includeBody then writeFunctionBody fn code else ""),
      "`###End of function with name " ++ fn.name ++ "  ###`\n\n" ]

/-- Function-declaration nodes an input contributes when successfully
read and parsed; failures contribute none. -/
def declCount : FileInput → Nat
  | .ok file _ => file.funcs.length
  | _ => 0

/-- Reports an input contributes: one on success, none on failure. -/
def successCount : FileInput → Nat
  | .ok _ _ => 1
  | _ => 0

mutual

/-- The one-pass call collector of `writeFunctionCalls` agrees with
filtering the pre-order node listing down to call expressions. -/
theorem collectCalls_eq_preorder : ∀ n : Node,
    collectCalls n = (preorder n).filterMap callOf
  | .call p e cs => by
    simp [collectCalls, preorder, callOf, collectCallsList_eq_preorderList cs]
  | .other cs => by
    simp [collectCalls, preorder, callOf, collectCallsList_eq_preorderList cs]

/-- List version of `collectCalls_eq_preorder`. -/
theorem collectCallsList_eq_preorderList : ∀ ns : List Node,
    collectCallsList ns = (preorderList ns).filterMap callOf
  | [] => by simp [collectCallsList, preorderList]
  | n :: ns => by
    simp [collectCallsList, preorderList, List.filterMap_append,
      collectCalls_eq_preorder n, collectCallsList_eq_preorderList ns]

end

theorem expr_scrub (e : Expr) : expr (scrub e) = expr e := by
  induction e using expr.induct <;> simp [scrub, expr, *]

theorem fieldPart_scrub (f : Field) : fieldPart (scrubField f) = fieldPart f := by
  simp [fieldPart, scrubField, expr_scrub]

theorem fields_scrub (fl : List Field) : fields (fl.map scrubField) = fields fl := by
  simp [fields, List.map_map, Function.comp_def, fieldPart_scrub]

theorem describe_scrub (fn : FuncDecl) (code : String) (b : Bool) :
    describeFunctionDeclaration (scrubFuncDecl fn) code b
      = describeFunctionDeclaration fn code b := by
  unfold describeFunctionDeclaration scrubFuncDecl
  cases fn.recv <;> cases fn.params <;> cases fn.results <;>
    simp [writeParameters, writeResults, writeFunctionCalls, writeFunctionBody, fields_scrub]

theorem scrubFuncDecl_name (fn : FuncDecl) : (scrubFuncDecl fn).name = fn.name := rfl

theorem buildFileDescription_scrub (p : Param) (file : GoFile) (code : String) :
    buildFileDescription p (scrubFile file) code = buildFileDescription p file code := by
  simp [buildFileDescription, scrubFile, List.map_map, Function.comp_def,
    describe_scrub, scrubFuncDecl_name]

theorem buildFileDescription_records_length (p : Param) (file : GoFile) (code : String) :
    (buildFileDescription p file code).2.1.length
      + (buildFileDescription p file code).2.2.length = file.funcs.length := by
  cases h : strContains p.FileName "_test" <;> simp [buildFileDescription, h]

theorem ParseFunctions_counts (f : Func) (p : Param) (input : FileInput) :
    ((ParseFunctions f p input).functionDescriptions.length
        + (ParseFunctions f p input).testFunctionDescriptions.length
      = f.functionDescriptions.length + f.testFunctionDescriptions.length + declCount input)
    ∧ (ParseFunctions f p input).FullDescriptions.length
        = f.FullDescriptions.length + successCount input := by
  cases input with
  | readError => simp [ParseFunctions, declCount, successCount]
  | parseError c => simp [ParseFunctions, declCount, successCount]
  | ok file code =>
    have h := buildFileDescription_records_length p file code
    simp [ParseFunctions, declCount, successCount]
    omega

theorem foldl_counts (inputs : List (Param × FileInput)) (f : Func) :
    ((inputs.foldl (fun g pi => ParseFunctions g pi.1 pi.2) f).functionDescriptions.length
        + (inputs.foldl (fun g pi => ParseFunctions g pi.1 pi.2) f).testFunctionDescriptions.length
      = f.functionDescriptions.length + f.testFunctionDescriptions.length
          + (inputs.map (fun pi => declCount pi.2)).sum)
    ∧ (inputs.foldl (fun g pi => ParseFunctions g pi.1 pi.2) f).FullDescriptions.length
        = f.FullDescriptions.length + (inputs.map (fun pi => successCount pi.2)).sum := by
  induction inputs generalizing f with
  | nil => simp
  | cons hd tl ih =>
    obtain ⟨h1, h2⟩ := ih (ParseFunctions f hd.1 hd.2)
    obtain ⟨s1, s2⟩ := ParseFunctions_counts f hd.1 hd.2
    simp only [List.foldl_cons, List.map_cons, List.sum_cons]
    constructor
    · rw [h1, s1]; omega
    · rw [h2, s2]; omega

theorem buildFileDescription_flags (p : Param) (file : GoFile) (code : String) :
    (∀ d ∈ (buildFileDescription p file code).2.1, d.IsTestFunction = false)
    ∧ (∀ d ∈ (buildFileDescription p file code).2.2, d.IsTestFunction = true) := by
  cases h : strContains p.FileName "_test" <;> simp [buildFileDescription, h]

theorem ParseFunctions_flags (f : Func) (p : Param) (input : FileInput)
    (hT : ∀ d ∈ f.testFunctionDescriptions, d.IsTestFunction = true)
    (hF : ∀ d ∈ f.functionDescriptions, d.IsTestFunction = false) :
    (∀ d ∈ (ParseFunctions f p input).testFunctionDescriptions, d.IsTestFunction = true)
    ∧ (∀ d ∈ (ParseFunctions f p input).functionDescriptions, d.IsTestFunction = false) := by
  cases input with
  | readError => exact ⟨hT, hF⟩
  | parseError c => exact ⟨hT, hF⟩
  | ok file code =>
    obtain ⟨h1, h2⟩ := buildFileDescription_flags p file code
    constructor
    · intro d hd
      simp only [ParseFunctions, List.mem_append] at hd
      rcases hd with h | h
      · exact hT d h
      · exact h2 d h
    · intro d hd
      simp only [ParseFunctions, List.mem_append] at hd
      rcases hd with h | h
      · exact hF d h
      · exact h1 d h

theorem foldl_flags (inputs : List (Param × FileInput)) (f : Func)
    (hT : ∀ d ∈ f.testFunctionDescriptions, d.IsTestFunction = true)
    (hF : ∀ d ∈ f.functionDescriptions, d.IsTestFunction = false) :
    (∀ d ∈ (inputs.foldl (fun g pi => ParseFunctions g pi.1 pi.2) f).testFunctionDescriptions,
        d.IsTestFunction = true)
    ∧ (∀ d ∈ (inputs.foldl (fun g pi => ParseFunctions g pi.1 pi.2) f).functionDescriptions,
        d.IsTestFunction = false) := by
  induction inputs generalizing f with
  | nil => exact ⟨hT, hF⟩
  | cons hd tl ih =>
    obtain ⟨pT, pF⟩ := ParseFunctions_flags f hd.1 hd.2 hT hF
    exact ih (ParseFunctions f hd.1 hd.2) pT pF

/-- C1 fails on the code: `fields` renders the anonymous group `(int)` as
the string `" int"` (a single space, then the type), not as `"int"`. -/
theorem C1_counterexample :
    fields [⟨[], Expr.ident "int"⟩] ≠ "int" ∧ fields [⟨[], Expr.ident "int"⟩] = " int" := by
  constructor
  · decide
  · rfl

/-- C1 (amended): a field-list group with zero names renders as a single
space followed by the rendered type, because the group string is the
name join (empty here) plus a space plus the type; in particular a
parameter list holding the single anonymous group renders `" " ++ type`. -/
theorem C1_thm (t : Expr) :
    fieldPart ⟨[], t⟩ = " " ++ expr t ∧ fields [⟨[], t⟩] = " " ++ expr t :=
  ⟨rfl, rfl⟩

/-- C2: the rendered call section holds one line per call-expression node
anywhere in the function's subtree, in pre-order traversal order, each
line the exact source slice `code[call.Pos()-1 : call.End()-1]`; on a
concrete call written with unusual spacing the spacing is reproduced
verbatim. -/
theorem C2_thm (fn : FuncDecl) (code : String) :
    writeFunctionCalls fn code =
      "## Function calls from other packages\n\n" ++ "```go\n" ++
        String.join (((preorder fn.tree).filterMap callOf).map
          (fun pe => "  " ++ goSlice code (pe.1 - 1) (pe.2 - 1) ++ "\n")) ++
        "```\n"
    ∧ writeFunctionCalls ⟨none, "f", none, none, none, 1, 13, Node.call 1 13 []⟩ "foo( 1,  2 )"
        = "## Function calls from other packages\n\n```go\n  foo( 1,  2 )\n```\n" := by
  constructor
  · unfold writeFunctionCalls
    rw [collectCalls_eq_preorder]
  · decide

/-- C3: over any run, ordinary plus test record counts equal the total
number of function declarations of the successfully read and parsed
files; a failing file contributes no report and no records, and skipping
it leaves the rest of the run unchanged. -/
theorem C3_thm (inputs : List (Param × FileInput)) :
    ((runAll inputs).functionDescriptions.length + (runAll inputs).testFunctionDescriptions.length
      = (inputs.map (fun pi => declCount pi.2)).sum)
    ∧ ((runAll inputs).FullDescriptions.length = (inputs.map (fun pi => successCount pi.2)).sum)
    ∧ (∀ p rest, runAll ((p, FileInput.readError) :: rest) = runAll rest)
    ∧ (∀ p c rest, runAll ((p, FileInput.parseError c) :: rest) = runAll rest) := by
  refine ⟨?_, ?_, fun p rest => rfl, fun p c rest => rfl⟩
  · have h := foldl_counts inputs ⟨[], [], []⟩
    simpa [runAll] using h.1
  · have h := foldl_counts inputs ⟨[], [], []⟩
    simpa [runAll] using h.2

/-- C4: a file is classified as a test file exactly when its file name
contains the substring `_test`, and that per-file predicate alone decides
placement: a test file puts every one of its functions (whatever their
own names) into the test list with the flag set, a non-test file puts
every function into the ordinary list. -/
theorem C4_thm (p : Param) (file : GoFile) (code : String) :
    (strContains p.FileName "_test" = true ↔ "_test".data <:+: p.FileName.data)
    ∧ ((buildFileDescription p file code).2.1
        = if strContains p.FileName "_test" then [] else
            file.funcs.map (fun fn =>
              { Name := fn.name
                Doc := describeFunctionDeclaration fn code p.IncludeBody
                Package := file.pkgName
                IsTestFunction := false }))
    ∧ ((buildFileDescription p file code).2.2
        = if strContains p.FileName "_test" then
            file.funcs.map (fun fn =>
              { Name := fn.name
                Doc := describeFunctionDeclaration fn code p.IncludeBody
                Package := file.pkgName
                IsTestFunction := true })
          else []) := by
  refine ⟨by simp [strContains], ?_, ?_⟩ <;>
    cases h : strContains p.FileName "_test" <;> simp [buildFileDescription, h]

/-- C5: the expression renderer satisfies the six rendering equations for
pointers, identifiers, fixed arrays, slices, maps and qualified names. -/
theorem C5_thm (t l elt k v x s : Expr) (n : String) :
    expr (Expr.star t) = "*" ++ expr t
    ∧ expr (Expr.ident n) = n
    ∧ expr (Expr.array (some l) elt) = "[" ++ expr l ++ "]" ++ expr elt
    ∧ expr (Expr.array none elt) = "[]" ++ expr elt
    ∧ expr (Expr.mapT k v) = "map[" ++ expr k ++ "]" ++ expr v
    ∧ expr (Expr.selector x s) = expr x ++ "." ++ expr s := by
  refine ⟨?_, ?_, ?_, ?_, ?_, ?_⟩ <;> simp [expr]

/-- C6: an unsupported expression variant renders as the empty string and
is node-scoped and non-fatal: replacing every unsupported node by a
supported node with the same empty rendering leaves the whole file
report and both record lists byte-identical, so the surrounding function
description and file report are produced in full. -/
theorem C6_thm (p : Param) (file : GoFile) (code : String) :
    expr Expr.unknown = ""
    ∧ buildFileDescription p (scrubFile file) code = buildFileDescription p file code :=
  ⟨by simp [expr], buildFileDescription_scrub p file code⟩

/-- C7: the rendered block is assembled in the fixed order doc lines,
header, optional receiver section, optional parameter line, optional
result line, call section, optional body, terminator; absent
receiver/parameter/result lists emit no label, while the call-section
label is emitted even when the subtree holds no calls. -/
theorem C7_thm (fn : FuncDecl) (code : String) (b : Bool) :
    describeFunctionDeclaration fn code b = describeBlockSpec fn code b
    ∧ writeFunctionCalls { fn with tree := Node.other [] } code
        = "## Function calls from other packages\n\n```go\n```\n" := by
  constructor
  · unfold describeFunctionDeclaration describeBlockSpec
    cases fn.doc <;> cases fn.recv <;> cases fn.params <;> cases fn.results <;>
      simp [writeComments, writeParameters, writeResults, String.join, String.append_assoc]
  · simp [writeFunctionCalls, collectCalls, collectCallsList, String.join, String.append_assoc]

/-- C8 fails on the code: the two copies of the function's source slice
are not emitted in immediate succession — the closing fence lies between
them, so the doubled slice is not a substring of the rendered block. -/
theorem C8_counterexample :
    ¬ ((goSlice "AB" 0 2 ++ goSlice "AB" 0 2).data
        <:+: (writeFunctionBody ⟨none, "f", none, none, none, 1, 3, Node.other []⟩ "AB").data) := by
  decide

/-- C8 (amended): when the body is requested the describer emits the
function's full exact source slice `code[fn.Pos()-1 : fn.End()-1]` twice,
once inside the fenced block and once right after it, the two copies
separated exactly by the closing fence line. -/
theorem C8_thm (fn : FuncDecl) (code : String) :
    writeFunctionBody fn code
      = ("####Function Body of function " ++ fn.name ++ "\n\n```go\n")
          ++ goSlice code (fn.pos - 1) (fn.endp - 1)
          ++ ("```\n" ++ goSlice code (fn.pos - 1) (fn.endp - 1)) := by
  simp [writeFunctionBody, String.append_assoc]

/-- C9: in any run, every record in the test list carries
`IsTestFunction = true` and every record in the ordinary list carries
`IsTestFunction = false`. -/
theorem C9_thm (inputs : List (Param × FileInput)) :
    (∀ d ∈ (runAll inputs).testFunctionDescriptions, d.IsTestFunction = true)
    ∧ (∀ d ∈ (runAll inputs).functionDescriptions, d.IsTestFunction = false) := by
  have h := foldl_flags inputs ⟨[], [], []⟩ (by simp) (by simp)
  simpa [runAll] using h

/-- C9 witness: a concrete run over one test file whose single function
lands in the test list with the flag set. -/
theorem C9_witness :
    ((runAll [(⟨"a_test.go", "a_test.go", false⟩,
        FileInput.ok ⟨"p", [⟨none, "TestAdd", none, none, none, 1, 1, Node.other []⟩]⟩ "")]
      ).testFunctionDescriptions.getD 0 ⟨"", "", "", false⟩).IsTestFunction = true :=
  (C9_thm [(⟨"a_test.go", "a_test.go", false⟩,
      FileInput.ok ⟨"p", [⟨none, "TestAdd", none, none, none, 1, 1, Node.other []⟩]⟩ "")]).1
    _ (by decide)

/-- C10: a successfully parsed file with zero function declarations still
contributes exactly one report — start header, file-path and file-name
lines, package line, section label, end footer, with no function blocks —
and contributes no records to either list. -/
theorem C10_thm (p : Param) (pkg code : String) (f : Func) :
    (buildFileDescription p ⟨pkg, []⟩ code
      = ((if strContains p.FileName "_test" then "##Start of go test file " ++ p.FilePath ++ " \n"
          else "##Start of go file " ++ p.FilePath ++ " \n")
          ++ "###File path: " ++ p.FilePath ++ " #######\n"
          ++ "###File name: " ++ p.FileName ++ " #######\n"
          ++ "## Package name: " ++ pkg ++ "\n"
          ++ (if strContains p.FileName "_test" then "##Test Functions\n" else "##Functions\n")
          ++ (if strContains p.FileName "_test" then
                "----- End of go test file " ++ p.FilePath ++ " ------- \n"
              else "----- End of go file " ++ p.FilePath ++ " ------- \n"),
         [], []))
    ∧ ParseFunctions f p (FileInput.ok ⟨pkg, []⟩ code)
      = { FullDescriptions := f.FullDescriptions ++ [(buildFileDescription p ⟨pkg, []⟩ code).1]
          functionDescriptions := f.functionDescriptions
          testFunctionDescriptions := f.testFunctionDescriptions } := by
  constructor
  · cases h : strContains p.FileName "_test" <;>
      simp [buildFileDescription, h, String.join]
  · cases h : strContains p.FileName "_test" <;>
      simp [ParseFunctions, buildFileDescription, h]

end GoParse
